import Mathlib

/-! Verification development for the IBKR order panel core (src/connector.rs).
The two algorithmic components are embedded shallowly: the quote-acquisition
polling loop (market_data, connector.rs lines 140-218) and the bracket order
orchestrator (submit_order, connector.rs lines 263-503).  The f64 arithmetic
of the source is modelled exactly over the rationals; on every concrete input
appearing below the f64 evaluation and the exact rational evaluation agree,
because the values rounded are far from the rounding boundaries.  Rust i32
division truncates toward zero, hence Int.tdiv.  The external gateway client
is modelled by the data it feeds the core: a tick stream for quote
acquisition, an order-status event stream and per-leg submission outcomes for
the orchestrator. -/

namespace IbkrPanel

/-- Rust f64 round: nearest integer, ties rounded away from zero. -/
def f64_round (x : ℚ) : ℤ :=
  if 0 ≤ x then ⌊x + 1/2⌋ else -⌊-x + 1/2⌋

/-- A tick delivered by the quote subscription (TickTypes): either a price
tick carrying a value, or any other tick kind (ignored by the source). -/
inductive Tick
  | price (v : ℚ)
  | other
  deriving DecidableEq

/-- Whether a tick is a price tick with strictly positive value, the only
kind the polling loop in market_data accepts (connector.rs line 173). -/
def isPosPrice : Tick → Bool
  | Tick.price v => decide (0 < v)
  | Tick.other => false

/-- Environment the gateway presents to one market_data call: whether
contract resolution produced a matching contract (and hence a subscription
was stored in subbed_hash), and the subscription tick stream; next pops
the head of the stream. -/
structure MarketEnv where
  resolved : Bool
  ticks : List Tick
  deriving DecidableEq

/-- Outcome of a market_data call: either the task crashes (a panic, from
unwrap on a missing client) or it returns an optional price. -/
inductive MDOutcome
  | crash
  | ok (p : Option ℚ)
  deriving DecidableEq

/-- Result of the bounded polling loop: the price found if any, the part of
the stream not yet consumed, and the number of loop iterations executed. -/
structure PollResult where
  found : Option ℚ
  rest : List Tick
  attempts : ℕ
  deriving DecidableEq

/-- The for-loop of market_data (connector.rs lines 168-186): up to the given
fuel many iterations; each iteration reads the next tick (if the stream still
has one) and breaks with the price on the first price tick with value > 0;
every other tick, and an exhausted stream, lets the iteration fall through. -/
def poll : ℕ → List Tick → PollResult
  | 0, ts => ⟨none, ts, 0⟩
  | n+1, [] =>
      let r := poll n []
      ⟨r.found, r.rest, r.attempts + 1⟩
  | n+1, Tick.price v :: rest =>
      if 0 < v then ⟨some v, rest, 1⟩
      else
        let r := poll n rest
        ⟨r.found, r.rest, r.attempts + 1⟩
  | n+1, Tick.other :: rest =>
      let r := poll n rest
      ⟨r.found, r.rest, r.attempts + 1⟩

/-- The single extra read attempt performed after the loop when no price was
found (connector.rs lines 195-216): one more next on the stream, accepted only
if it is a price tick with value > 0; anything else yields None. -/
def finalRead : List Tick → Option ℚ
  | [] => none
  | Tick.price v :: _ => if 0 < v then some v else none
  | Tick.other :: _ => none

/-- Observable result of a market_data call: its outcome, how many polling
iterations ran, and whether the subscription was explicitly cancelled. -/
structure MDResult where
  outcome : MDOutcome
  attempts : ℕ
  cancelled : Bool
  deriving DecidableEq

/-- The market_data method of the connector (connector.rs lines 140-218).
With no stored client (self.ib = None) the call hits unwrap on None at line
148 and panics.  Otherwise: if resolution failed the loop runs its 10
iterations with nothing to read and both the loop and the final extra read
find nothing; if a subscription exists, the loop polls its stream, the
subscription is cancelled exactly when the loop found a price, and otherwise
the final extra read decides the result (without cancelling). -/
def market_data (ib : Option MarketEnv) : MDResult :=
  match ib with
  | none => ⟨MDOutcome.crash, 0, false⟩
  | some env =>
      if env.resolved then
        let r := poll 10 env.ticks
        match r.found with
        | some v => ⟨MDOutcome.ok (some v), r.attempts, true⟩
        | none => ⟨MDOutcome.ok (finalRead r.rest), r.attempts, false⟩
      else ⟨MDOutcome.ok none, 10, false⟩

/-- Order side, as in ibapi Action. -/
inductive Action
  | buy
  | sell
  deriving DecidableEq

/-- Order type selector passed to submit_order; only Market triggers the
bracket logic, every other variant falls through to the stub return. -/
inductive OrderType
  | market
  | limit
  | stop
  deriving DecidableEq

/-- One event of the market-leg status stream consumed by the while-let loop
in submit_order (connector.rs lines 296-351): an order-status report carrying
a status label and an average fill price, some other Ok variant, or a stream
error. -/
inductive PlaceEvent
  | status (s : String) (avgFill : ℚ)
  | other
  | err (e : String)
  deriving DecidableEq

/-- One stop order as submitted by the orchestrator: its side, its aux
(stop) price and its quantity. -/
structure StopLeg where
  action : Action
  price : ℚ
  qty : ℤ
  deriving DecidableEq

/-- Resolution of the action string for the market entry order
(connector.rs lines 280-284): BUY maps to Buy, SELL to Sell, anything
else defaults to Buy. -/
def entryAction (action : String) : Action :=
  if action = "BUY" then Action.buy
  else if action = "SELL" then Action.sell
  else Action.buy

/-- Resolution of the action string for each stop leg (connector.rs lines
327-331): Buy when the string is BUY, Sell otherwise. -/
def stopAction (action : String) : Action :=
  if action = "BUY" then Action.buy else Action.sell

/-- Signed fill-to-stop distance (connector.rs lines 304-308). -/
def price_diff (action : String) (avg_fill_price stop_price : ℚ) : ℚ :=
  if action = "BUY" then avg_fill_price - stop_price else stop_price - avg_fill_price

/-- The three derived stop prices exactly as computed at connector.rs lines
310-322.  Note the placement of the factor 100: the source multiplies only
the diff term by 100 before rounding, not the whole sum. -/
def stop_prices (action : String) (stop_price pd : ℚ) : List ℚ :=
  [ if action = "BUY" then (f64_round (stop_price + pd * 2 / 3 * 100) : ℚ) / 100
    else (f64_round (stop_price - pd * 2 / 3 * 100) : ℚ) / 100,
    if action = "BUY" then (f64_round (stop_price + pd * 1 / 3 * 100) : ℚ) / 100
    else (f64_round (stop_price - pd * 1 / 3 * 100) : ℚ) / 100,
    (f64_round (stop_price * 100) : ℚ) / 100 ]

/-- The three stop-leg quantities (connector.rs line 324); i32 division
truncates toward zero. -/
def stop_sizes (qty : ℤ) : List ℤ :=
  [qty.tdiv 3, qty.tdiv 3, qty - 2 * qty.tdiv 3]

/-- The sequential stop submissions (connector.rs lines 326-343): one
place_order call per leg, whose result is bound to the wildcard pattern and
hence discarded; the legs submitted and the unconsumed outcomes are
returned.  Every leg is submitted regardless of the outcomes. -/
def placeStops : List StopLeg → List (Except String Unit) →
    List StopLeg × List (Except String Unit)
  | [], outcomes => ([], outcomes)
  | l :: ls, outcomes =>
      let r := placeStops ls outcomes.tail
      (l :: r.1, r.2)

/-- Observable result of a submit_order call: the returned (bool, String)
pair and the stop legs submitted along the way. -/
structure SubmitResult where
  success : Bool
  message : String
  stops : List StopLeg
  deriving DecidableEq

/-- The while-let loop over the market-leg status stream (connector.rs lines
296-351).  An order-status event with a label other than Filled returns the
not-filled failure at once; a Filled status derives the ladder and submits
the three stop legs, then the loop continues with the next event; other Ok
variants are skipped; a stream error returns the error message.  When the
stream ends the stub return at lines 499-502 is reached. -/
def processEvents (action : String) (qty : ℤ) (stop_price : ℚ) :
    List PlaceEvent → List (Except String Unit) → List StopLeg → SubmitResult
  | [], _, acc => ⟨true, "Order submission logic not yet implemented.", acc⟩
  | PlaceEvent.status s avgFill :: restEvents, outcomes, acc =>
      if s ≠ "Filled" then ⟨false, "Market order was not filled.", acc⟩
      else
        let pd := price_diff action avgFill stop_price
        let legs := List.zipWith (fun p q => StopLeg.mk (stopAction action) p q)
          (stop_prices action stop_price pd) (stop_sizes qty)
        let placed := placeStops legs outcomes
        processEvents action qty stop_price restEvents placed.2 (acc ++ placed.1)
  | PlaceEvent.other :: restEvents, outcomes, acc =>
      processEvents action qty stop_price restEvents outcomes acc
  | PlaceEvent.err e :: _, _, acc =>
      ⟨false, "Error placing order: " ++ e, acc⟩

/-- The submit_order method (connector.rs lines 263-503): a connection check
first, then the Market branch consumes the status stream; any other order
type reaches only the stub return.  The entry_price parameter is unused by
the Market branch, exactly as in the source. -/
def submit_order (connected : Bool) (qty : ℤ) (stop_price entry_price : ℚ)
    (action : String) (order_type : OrderType) (events : List PlaceEvent)
    (outcomes : List (Except String Unit)) : SubmitResult :=
  if connected = false then ⟨false, "Not connected to IB Gateway", []⟩
  else if order_type = OrderType.market then
    processEvents action qty stop_price events outcomes []
  else ⟨true, "Order submission logic not yet implemented.", []⟩

/-- Whether every stop leg of a result carries the given side. -/
def allLegsAction (r : SubmitResult) (a : Action) : Bool :=
  r.stops.all (fun l => decide (l.action = a))

/-- The stored gateway client; all the core reads from it is whether it
reports itself connected. -/
structure Client where
  connected : Bool
  deriving DecidableEq

/-- The connector state: at most one stored client (connector.rs line 13). -/
structure Connector where
  ib : Option Client
  deriving DecidableEq

/-- The is_connected method (connector.rs lines 48-53). -/
def is_connected (c : Connector) : Bool :=
  match c.ib with
  | some client => client.connected
  | none => false

/-- The connect method (connector.rs lines 41-46): it takes a shared
reference, asks the gateway for a client, discards the client on success
(the Ok binding ignores its value) and returns only a Bool; the stored
state is passed through unchanged. -/
def connect (c : Connector) (address : String) (port : ℕ) (client_id : ℤ)
    (gateway : String → ℕ → ℤ → Option Client) : Bool × Connector :=
  match gateway address port client_id with
  | some _ => (true, c)
  | none => (false, c)

/-- The sequential submission passes every derived leg to the gateway,
whatever the submission outcomes are. -/
lemma placeStops_fst (legs : List StopLeg) (outcomes : List (Except String Unit)) :
    (placeStops legs outcomes).1 = legs := by
  induction legs generalizing outcomes with
  | nil => rfl
  | cons l ls ih => simp [placeStops, ih]

/-- When no positive price tick sits among the first n + 1 stream elements,
the n-iteration loop finds nothing, consumes n elements, and the extra read
on the remainder finds nothing either. -/
lemma poll_no_pos (n : ℕ) : ∀ ts : List Tick,
    (∀ t ∈ ts.take (n+1), isPosPrice t = false) →
    poll n ts = ⟨none, ts.drop n, n⟩ ∧ finalRead (ts.drop n) = none := by
  induction n with
  | zero =>
    intro ts h
    refine ⟨rfl, ?_⟩
    cases ts with
    | nil => rfl
    | cons t rest =>
      have ht := h t (by simp)
      cases t with
      | price v =>
        have hv : ¬ 0 < v := by simpa [isPosPrice] using ht
        simp [finalRead, hv]
      | other => rfl
  | succ n ih =>
    intro ts h
    cases ts with
    | nil =>
      have h0 := ih [] (by simp)
      constructor
      · simp [poll, h0.1]
      · simpa using h0.2
    | cons t rest =>
      have ht : isPosPrice t = false := h t (by simp)
      have htail : ∀ x ∈ rest.take (n+1), isPosPrice x = false := by
        intro x hx
        exact h x (by simp [hx])
      have hr := ih rest htail
      cases t with
      | price v =>
        have hv : ¬ 0 < v := by simpa [isPosPrice] using ht
        constructor
        · simp [poll, hv, hr.1]
        · simpa using hr.2
      | other =>
        constructor
        · simp [poll, hr.1]
        · simpa using hr.2

/-- When the stream starts with non-accepting ticks followed by a positive
price tick, and the fuel exceeds the prefix length, the loop breaks on that
first positive tick, after exactly one iteration per consumed element. -/
lemma poll_found_first (v : ℚ) (hv : 0 < v) (rest : List Tick) :
    ∀ (pre : List Tick) (n : ℕ), pre.length < n →
    (∀ t ∈ pre, isPosPrice t = false) →
    poll n (pre ++ Tick.price v :: rest) = ⟨some v, rest, pre.length + 1⟩ := by
  intro pre
  induction pre with
  | nil =>
    intro n hn _
    cases n with
    | zero => exact absurd hn (by omega)
    | succ m => simp [poll, hv]
  | cons t pre ih =>
    intro n hn hpre
    cases n with
    | zero => exact absurd hn (by omega)
    | succ m =>
      have ht := hpre t (by simp)
      have hpre2 : ∀ x ∈ pre, isPosPrice x = false := fun x hx => hpre x (by simp [hx])
      have hlen : pre.length < m := by simpa using hn
      cases t with
      | price w =>
        have hw : ¬ 0 < w := by simpa [isPosPrice] using ht
        simp [poll, hw, ih m hlen hpre2]
      | other =>
        simp [poll, ih m hlen hpre2]

/-- The loop finds a price exactly when a positive price tick sits among the
first n stream elements. -/
lemma poll_found_iff (n : ℕ) : ∀ ts : List Tick,
    (poll n ts).found.isSome = true ↔ ∃ t ∈ ts.take n, isPosPrice t = true := by
  induction n with
  | zero => intro ts; simp [poll]
  | succ n ih =>
    intro ts
    cases ts with
    | nil =>
      have h0 := ih []
      simp only [List.take_nil, List.not_mem_nil, false_and, exists_false,
        iff_false] at h0 ⊢
      simpa [poll] using h0
    | cons t rest =>
      cases t with
      | price v =>
        by_cases hv : 0 < v
        · simp [poll, hv, isPosPrice]
        · simp [poll, hv, isPosPrice, ih rest]
      | other =>
        simp [poll, isPosPrice, ih rest]

/-- C2: for every quantity q > 0 the three stop-leg quantities are
q1 = q2 = floor of q / 3 (integer division) and q3 = q - 2 * (q / 3), and
they sum exactly to q: the legs partition the original quantity. -/
theorem stop_sizes_partition (q : ℤ) (h : 0 < q) :
    stop_sizes q = [q / 3, q / 3, q - 2 * (q / 3)] ∧ (stop_sizes q).sum = q := by
  have ht : q.tdiv 3 = q / 3 := Int.tdiv_eq_ediv (le_of_lt h) (by norm_num)
  constructor
  · simp [stop_sizes, ht]
  · simp only [stop_sizes, List.sum_cons, List.sum_nil]
    ring

/-- Witness for C2 at q = 100: the legs are 33, 33, 34 and sum to 100. -/
theorem stop_sizes_partition_witness :
    0 < (100 : ℤ) ∧
    (stop_sizes 100 = [100 / 3, 100 / 3, 100 - 2 * (100 / 3)] ∧
      (stop_sizes 100).sum = 100) :=
  ⟨by decide, stop_sizes_partition 100 (by decide)⟩

/-- C3: when no price tick with positive value sits among the ticks the
stream can deliver to the 10 polling attempts and the one final extra read
(its first 11 elements), market_data returns None. -/
theorem market_data_no_positive_tick_absent (env : MarketEnv)
    (h : ∀ t ∈ env.ticks.take 11, isPosPrice t = false) :
    (market_data (some env)).outcome = MDOutcome.ok none := by
  obtain ⟨resolved, ticks⟩ := env
  cases resolved with
  | false => simp [market_data]
  | true =>
    have hp := poll_no_pos 10 ticks h
    simp [market_data, hp.1, hp.2]

/-- Witness for C3 on a stream with an other tick, a zero price and a
negative price: the result is None. -/
theorem market_data_no_positive_tick_absent_witness :
    (∀ t ∈ (MarketEnv.mk true [Tick.other, Tick.price 0, Tick.price (-3)]).ticks.take 11,
        isPosPrice t = false) ∧
    (market_data (some (MarketEnv.mk true [Tick.other, Tick.price 0, Tick.price (-3)]))).outcome
      = MDOutcome.ok none :=
  ⟨by decide, market_data_no_positive_tick_absent _ (by decide)⟩

/-- C4: the loop returns the first positive price tick it observes and stops
polling at once: for any prefix of non-accepting ticks shorter than the 10
attempts, followed by a positive price, the number of attempts is the prefix
length plus one, the result is that first positive price, and the ticks
after it (universally quantified) cannot affect the result. -/
theorem market_data_early_exit (pre : List Tick)
    (hpre : ∀ t ∈ pre, isPosPrice t = false) (hlen : pre.length < 10)
    (v : ℚ) (hv : 0 < v) (rest : List Tick) :
    market_data (some (MarketEnv.mk true (pre ++ Tick.price v :: rest)))
      = ⟨MDOutcome.ok (some v), pre.length + 1, true⟩ := by
  have hp := poll_found_first v hv rest pre 10 hlen hpre
  simp [market_data, hp]

/-- Witness for C4: a stream whose third tick is the first positive price
makes exactly 3 attempts, returns that price and ignores the later tick. -/
theorem market_data_early_exit_witness :
    (∀ t ∈ [Tick.other, Tick.price 0], isPosPrice t = false) ∧
    ([Tick.other, Tick.price 0] : List Tick).length < 10 ∧
    0 < (5 : ℚ) ∧
    market_data (some (MarketEnv.mk true
        ([Tick.other, Tick.price 0] ++ Tick.price 5 :: [Tick.price 99])))
      = ⟨MDOutcome.ok (some 5), [Tick.other, Tick.price 0].length + 1, true⟩ :=
  ⟨by decide, by decide, by decide,
    market_data_early_exit [Tick.other, Tick.price 0] (by decide) (by decide)
      5 (by decide) [Tick.price 99]⟩

/-- C9: the quote subscription is explicitly cancelled exactly when the 10
polling attempts themselves find a positive price; on resolution failure, on
exhausted attempts, and even when the final extra read rescues a price, no
cancel is issued. -/
theorem market_data_cancel_iff (env : MarketEnv) :
    (market_data (some env)).cancelled = true ↔
      (env.resolved = true ∧ ∃ t ∈ env.ticks.take 10, isPosPrice t = true) := by
  obtain ⟨resolved, ticks⟩ := env
  cases resolved with
  | false => simp [market_data]
  | true =>
    have hiff := poll_found_iff 10 ticks
    cases hf : (poll 10 ticks).found with
    | none =>
      rw [hf] at hiff
      simp only [Option.isSome_none, Bool.false_eq_true, false_iff] at hiff
      simp [market_data, hf, hiff]
    | some v =>
      rw [hf] at hiff
      simp only [Option.isSome_some, true_iff] at hiff
      simp [market_data, hf, hiff]

/-- C7: with no stored client the market_data method does not return an
absent result: it unwraps a None option and panics. -/
theorem market_data_not_connected_crashes :
    market_data none = ⟨MDOutcome.crash, 0, false⟩ ∧
    MDOutcome.crash ≠ MDOutcome.ok none := by decide

/-- C1: in the scenario action Buy, quantity 100, stop price 10.00, average
fill price 11.00, the orchestrator derives the stop prices 0.77, 0.43, 10.00
rather than the 10.67, 10.33, 10.00 of the specification: the source
multiplies only the diff term by 100 before rounding, so the two-decimal
rounding is applied to a wrongly scaled value. -/
theorem bracket_stop_prices_diverge :
    (submit_order true 100 10 0 "BUY" OrderType.market
        [PlaceEvent.status "Filled" 11] []).stops.map StopLeg.price
      = [77/100, 43/100, 10] ∧
    ([(77 : ℚ)/100, 43/100, 10] ≠ [1067/100, 1033/100, 10]) := by
  refine ⟨?_, by norm_num⟩
  have h1 : f64_round ((230:ℚ)/3) = 77 := by
    have h0 : (0:ℚ) ≤ 230/3 := by norm_num
    simp only [f64_round, if_pos h0]
    rw [Int.floor_eq_iff]
    constructor <;> norm_num
  have h2 : f64_round ((130:ℚ)/3) = 43 := by
    have h0 : (0:ℚ) ≤ 130/3 := by norm_num
    simp only [f64_round, if_pos h0]
    rw [Int.floor_eq_iff]
    constructor <;> norm_num
  have h3 : f64_round (1000:ℚ) = 1000 := by
    have h0 : (0:ℚ) ≤ 1000 := by norm_num
    simp only [f64_round, if_pos h0]
    rw [Int.floor_eq_iff]
    constructor <;> norm_num
  simp [submit_order, processEvents, stop_prices, stop_sizes, price_diff, placeStops]
  norm_num [h1, h2, h3]

/-- C10: connect passes the stored session through unchanged for every
starting state, and on a connector with no stored client the state is still
empty after connect and is_connected still reports false, whatever the
gateway answers. -/
theorem connect_preserves_session (c : Connector) (address : String) (port : ℕ)
    (client_id : ℤ) (gateway : String → ℕ → ℤ → Option Client) :
    (connect c address port client_id gateway).2 = c ∧
    (connect ⟨none⟩ address port client_id gateway).2.ib = none ∧
    is_connected (connect ⟨none⟩ address port client_id gateway).2 = false := by
  refine ⟨?_, ?_, ?_⟩ <;>
  · unfold connect
    cases gateway address port client_id <;> simp [is_connected]

/-- Counterexample to C5 as stated: a status stream that reports Filled and
then a status other than Filled does make submit_order return the not-filled
failure pair, but three stop orders have already been placed, not zero. -/
theorem submit_late_nonfilled_keeps_stops :
    (submit_order true 100 10 0 "BUY" OrderType.market
        [PlaceEvent.status "Filled" 11, PlaceEvent.status "Cancelled" 11] []).success = false ∧
    (submit_order true 100 10 0 "BUY" OrderType.market
        [PlaceEvent.status "Filled" 11, PlaceEvent.status "Cancelled" 11] []).message
      = "Market order was not filled." ∧
    (submit_order true 100 10 0 "BUY" OrderType.market
        [PlaceEvent.status "Filled" 11, PlaceEvent.status "Cancelled" 11] []).stops.length
      = 3 := by decide

/-- C5 (amended): when the first order-status event of the market-leg stream
(with no preceding stream error) carries a status other than Filled,
submit_order returns (false, "Market order was not filled.") and places zero
stop orders. -/
theorem submit_first_status_not_filled (pre : List PlaceEvent)
    (hpre : ∀ e ∈ pre, e = PlaceEvent.other) (s : String) (hs : s ≠ "Filled")
    (fill : ℚ) (restEvents : List PlaceEvent) (qty : ℤ) (sp ep : ℚ)
    (action : String) (outcomes : List (Except String Unit)) :
    submit_order true qty sp ep action OrderType.market
        (pre ++ PlaceEvent.status s fill :: restEvents) outcomes
      = ⟨false, "Market order was not filled.", []⟩ := by
  have key : ∀ (pre : List PlaceEvent), (∀ e ∈ pre, e = PlaceEvent.other) →
      ∀ (outcomes : List (Except String Unit)) (acc : List StopLeg),
      processEvents action qty sp (pre ++ PlaceEvent.status s fill :: restEvents)
          outcomes acc
        = ⟨false, "Market order was not filled.", acc⟩ := by
    intro pre
    induction pre with
    | nil =>
      intro _ outcomes acc
      simp only [List.nil_append, processEvents, if_pos hs]
    | cons e pre ih =>
      intro hp outcomes acc
      have he : e = PlaceEvent.other := hp e (by simp)
      subst he
      simpa [processEvents] using ih (fun x hx => hp x (by simp [hx])) outcomes acc
  simpa [submit_order] using key pre hpre outcomes []

/-- Witness for the amended C5: one other event, then a Cancelled status. -/
theorem submit_first_status_not_filled_witness :
    (∀ e ∈ [PlaceEvent.other], e = PlaceEvent.other) ∧
    ("Cancelled" ≠ "Filled") ∧
    submit_order true 100 10 0 "BUY" OrderType.market
        ([PlaceEvent.other] ++ PlaceEvent.status "Cancelled" 11 :: [PlaceEvent.other]) []
      = ⟨false, "Market order was not filled.", []⟩ :=
  ⟨by decide, by decide,
    submit_first_status_not_filled [PlaceEvent.other] (by decide) "Cancelled"
      (by decide) 11 [PlaceEvent.other] 100 10 0 "BUY" []⟩

/-- C6: the source discards the result of every stop-leg place_order call,
so a submission error on the first leg neither aborts the bracket nor
surfaces in the returned pair: all three legs are still submitted and the
call returns success with the stub message. -/
theorem stop_leg_error_ignored :
    (submit_order true 100 10 0 "BUY" OrderType.market [PlaceEvent.status "Filled" 11]
        [Except.error "submission rejected", Except.ok (), Except.ok ()]).success = true ∧
    (submit_order true 100 10 0 "BUY" OrderType.market [PlaceEvent.status "Filled" 11]
        [Except.error "submission rejected", Except.ok (), Except.ok ()]).message
      = "Order submission logic not yet implemented." ∧
    (submit_order true 100 10 0 "BUY" OrderType.market [PlaceEvent.status "Filled" 11]
        [Except.error "submission rejected", Except.ok (), Except.ok ()]).stops.length
      = 3 := by decide

/-- Every stop leg accumulated by the status loop carries the stop side
derived from the action string. -/
lemma processEvents_stops_action (action : String) (qty : ℤ) (sp : ℚ) :
    ∀ (events : List PlaceEvent) (outcomes : List (Except String Unit))
      (acc : List StopLeg), (∀ l ∈ acc, l.action = stopAction action) →
      ∀ l ∈ (processEvents action qty sp events outcomes acc).stops,
        l.action = stopAction action := by
  intro events
  induction events with
  | nil =>
    intro outcomes acc hacc
    simpa [processEvents] using hacc
  | cons e restEvents ih =>
    intro outcomes acc hacc
    cases e with
    | status s avgFill =>
      by_cases hs : s ≠ "Filled"
      · simpa [processEvents, if_pos hs] using hacc
      · set legs := List.zipWith (fun p q => StopLeg.mk (stopAction action) p q)
          (stop_prices action sp (price_diff action avgFill sp))
          (stop_sizes qty) with hlegsdef
        have hlegs : ∀ l ∈ (placeStops legs outcomes).1,
            l.action = stopAction action := by
          rw [placeStops_fst]
          intro l hl
          rw [hlegsdef] at hl
          simp only [stop_prices, stop_sizes, List.zipWith, List.mem_cons,
            List.not_mem_nil, or_false] at hl
          rcases hl with h1 | h2 | h3
          · rw [h1]
          · rw [h2]
          · rw [h3]
        have happ := ih (placeStops legs outcomes).2
          (acc ++ (placeStops legs outcomes).1)
          (by
            intro l hl
            rcases List.mem_append.mp hl with h | h
            · exact hacc l h
            · exact hlegs l h)
        simpa [processEvents, if_neg hs, ← hlegsdef] using happ
    | other =>
      simpa [processEvents] using ih outcomes acc hacc
    | err e =>
      simpa [processEvents] using hacc

/-- C8: for the actions BUY and SELL, every stop leg submitted by the
orchestrator carries the same side as the market entry order: all legs of a
BUY bracket are Buy orders and all legs of a SELL bracket are Sell orders. -/
theorem stop_legs_same_action (connected : Bool) (qty : ℤ) (sp ep : ℚ)
    (action : String) (h : action = "BUY" ∨ action = "SELL") (ot : OrderType)
    (events : List PlaceEvent) (outcomes : List (Except String Unit)) :
    allLegsAction (submit_order connected qty sp ep action ot events outcomes)
      (entryAction action) = true := by
  have hsa : stopAction action = entryAction action := by
    rcases h with rfl | rfl <;> rfl
  have hall : ∀ l ∈ (submit_order connected qty sp ep action ot events outcomes).stops,
      l.action = entryAction action := by
    by_cases hc : connected = false
    · simp [submit_order, hc]
    · by_cases hot : ot = OrderType.market
      · intro l hl
        rw [← hsa]
        refine processEvents_stops_action action qty sp events outcomes [] (by simp) l ?_
        simpa [submit_order, hc, hot] using hl
      · simp [submit_order, hc, hot]
  simp only [allLegsAction, List.all_eq_true, decide_eq_true_eq]
  exact hall

/-- Witness for C8: a filled BUY bracket has only Buy stop legs. -/
theorem stop_legs_same_action_witness :
    ("BUY" = "BUY" ∨ "BUY" = "SELL") ∧
    allLegsAction (submit_order true 100 10 0 "BUY" OrderType.market
        [PlaceEvent.status "Filled" 11] []) (entryAction "BUY") = true :=
  ⟨Or.inl rfl,
    stop_legs_same_action true 100 10 0 "BUY" (Or.inl rfl) OrderType.market
      [PlaceEvent.status "Filled" 11] []⟩

end IbkrPanel
